import Mathlib

/-!
Verification of the transaction/attachment matching engine (`src/match.py`).

Python strings are modelled as `List Char` (`Str`); Python `None`-able strings
as `Option Str`; Python floats as `ℚ`; loosely-typed date values (which may be
`None` or a string) as `PyVal`.  Each definition below is a direct translation
of the corresponding Python function in `src/match.py`.
-/

set_option maxRecDepth 10000

namespace Nocfo

abbrev Str := List Char

/-- A loosely-typed Python value, as can appear in a date field of a record:
`None`, a string, or an int.  `strptime` raises `TypeError` on non-strings,
which the code catches and turns into `False`. -/
inductive PyVal where
  | vnone : PyVal
  | vstr : Str → PyVal
  | vint : Int → PyVal
deriving DecidableEq

/-- Python whitespace characters relevant to `str.strip()` / `str.split()`
(ASCII model): space, tab, newline, carriage return, vertical tab, form feed. -/
def isPySpace (c : Char) : Bool :=
  c = ' ' || c = '\t' || c = '\n' || c = '\r' || c = Char.ofNat 11 || c = Char.ofNat 12

/-- Python truthiness of an optional string: `None` and `""` are falsy. -/
def truthyStr : Option Str → Bool
  | none => false
  | some s => !s.isEmpty

/-- `ref.replace(" ", "")`: removes every space character (only U+0020). -/
def removeSpaces (s : Str) : Str := s.filter (fun c => c ≠ ' ')

/-- `s.lstrip("0")`: drop leading `'0'` characters. -/
def lstrip0 (s : Str) : Str := s.dropWhile (fun c => c = '0')

/-- `normalize_reference` from `src/match.py` lines 24-58. -/
def normalize_reference : Option Str → Option Str
  | none => none
  | some r =>
    match removeSpaces r with
    | [] => none
    | c :: cs =>
      let ref := c :: cs
      if c.isAlpha then
        let p := ref.takeWhile Char.isAlpha
        let rest := ref.dropWhile Char.isAlpha
        match rest with
        | [] => some ref
        | _ :: _ =>
          some (p ++ (match lstrip0 rest with | [] => ['0'] | z => z))
      else
        some (match lstrip0 ref with | [] => ['0'] | z => z)

/-- `AMOUNT_TOLERANCE = 0.01`. -/
def AMOUNT_TOLERANCE : ℚ := 1 / 100

/-- `amounts_match` from `src/match.py` lines 81-89. -/
def amounts_match (amount1 amount2 : ℚ) : Bool :=
  |(|amount1| - |amount2|)| < AMOUNT_TOLERANCE

/-- Inner cells of one row of the Levenshtein DP
(`for j, c2 in enumerate(s2)` loop, lines 113-118): `prev` is the previous
row (walked in step with `s2`), `left` the cell just written in this row. -/
def levAux (c1 : Char) : List Char → List Nat → Nat → List Nat
  | c2 :: s2t, pj :: prevt, left =>
    let pj1 := prevt.headD 0
    let cur := min (min (pj1 + 1) (left + 1)) (pj + (if c1 = c2 then 0 else 1))
    cur :: levAux c1 s2t prevt cur
  | _, _, _ => []

/-- Outer loop of the Levenshtein DP (`for i, c1 in enumerate(s1)`, line 111). -/
def levLoop : List Char → List Char → List Nat → Nat → List Nat
  | [], _, prev, _ => prev
  | c1 :: s1t, s2, prev, i =>
    levLoop s1t s2 ((i + 1) :: levAux c1 s2 prev (i + 1)) (i + 1)

/-- Body of `levenshtein_distance` after the argument swap (lines 105-121). -/
def levCore (s1 s2 : List Char) : Nat :=
  if s2.length = 0 then s1.length
  else (levLoop s1 s2 (List.range (s2.length + 1)) 0).getLastD 0

/-- `levenshtein_distance` from `src/match.py` lines 92-121: arguments are
swapped so that the first is the longer (line 102-103). -/
def levenshtein_distance (s1 s2 : List Char) : Nat :=
  if s1.length < s2.length then levCore s2 s1 else levCore s1 s2

/-- Python `name.lower()` (ASCII model). -/
def pyLower (s : Str) : Str := s.map Char.toLower

/-- Python `name.strip()`: remove leading and trailing whitespace. -/
def pyStrip (s : Str) : Str :=
  ((s.dropWhile isPySpace).reverse.dropWhile isPySpace).reverse

/-- Python `name.split()`: maximal runs of non-whitespace characters. -/
def pySplit (s : Str) : List Str :=
  (s.splitOnP isPySpace).filter (fun w => w ≠ [])

/-- `MIN_SIGNIFICANT_WORD_LENGTH = 2`. -/
def MIN_SIGNIFICANT_WORD_LENGTH : Nat := 2

/-- `FUZZY_MATCH_WORD_LENGTH_CUTOFF = 6`. -/
def FUZZY_MATCH_WORD_LENGTH_CUTOFF : Nat := 6

/-- `FUZZY_MATCH_THRESHOLD_LONG = 0.85`. -/
def FUZZY_MATCH_THRESHOLD_LONG : ℚ := 85 / 100

/-- `FUZZY_MATCH_THRESHOLD_SHORT = 1.0`. -/
def FUZZY_MATCH_THRESHOLD_SHORT : ℚ := 1

/-- The significant words of a (normalized) name: words of length
`> MIN_SIGNIFICANT_WORD_LENGTH` (lines 149-154). -/
def significantWords (s : Str) : List Str :=
  (pySplit s).filter (fun w => MIN_SIGNIFICANT_WORD_LENGTH < w.length)

/-- Which significant-word list drives the match-all loop (line 161):
`significant_words1` when its length is `≤` the other's, else the other. -/
def shorterSide (a b : List Str) : List Str :=
  if a.length ≤ b.length then a else b

/-- The other significant-word list (line 162). -/
def longerSide (a b : List Str) : List Str :=
  if a.length ≤ b.length then b else a

/-- `similarity = 1 - (distance / max_len)` (lines 171-173). -/
def similarity (w v : Str) : ℚ :=
  1 - (levenshtein_distance w v : ℚ) / ((max w.length v.length : Nat) : ℚ)

/-- `best_similarity`: starts at `0`, maximum over the longer list
(lines 168-174). -/
def bestSimilarity (w : Str) (longer : List Str) : ℚ :=
  (longer.map (similarity w)).foldl max 0

/-- The per-word threshold (line 178): `0.85` for words longer than the
cutoff, `1.0` otherwise. -/
def wordThreshold (w : Str) : ℚ :=
  if FUZZY_MATCH_WORD_LENGTH_CUTOFF < w.length then FUZZY_MATCH_THRESHOLD_LONG
  else FUZZY_MATCH_THRESHOLD_SHORT

/-- Python substring test `a in b`: `a` occurs contiguously in `b`. -/
def pyContains (a : Str) : Str → Bool
  | [] => a.isEmpty
  | c :: t => a.isPrefixOf (c :: t) || pyContains a t

/-- `names_match` from `src/match.py` lines 124-186. -/
def names_match (name1 name2 : Option Str) : Bool :=
  match name1, name2 with
  | some a, some b =>
    let n1 := pyStrip (pyLower a)
    let n2 := pyStrip (pyLower b)
    if pyContains n1 n2 || pyContains n2 n1 then true
    else
      let sig1 := significantWords n1
      let sig2 := significantWords n2
      if sig1.isEmpty || sig2.isEmpty then false
      else
        let shorter := shorterSide sig1 sig2
        let longer := longerSide sig1 sig2
        decide ((shorter.countP
          (fun w => decide (wordThreshold w ≤ bestSimilarity w longer))) =
          shorter.length)
  | _, _ => false

/-- Gregorian leap-year test. -/
def isLeap (y : Nat) : Bool := (y % 4 = 0 && y % 100 ≠ 0) || y % 400 = 0

/-- Days in a month of the Gregorian calendar. -/
def daysInMonth (y m : Nat) : Nat :=
  if m = 2 then (if isLeap y then 29 else 28)
  else if m = 4 || m = 6 || m = 9 || m = 11 then 30
  else 31

/-- Days in year `y` strictly before month `m`. -/
def daysBeforeMonth (y m : Nat) : Nat :=
  (List.range (m - 1)).foldl (fun acc i => acc + daysInMonth y (i + 1)) 0

/-- Day number of a calendar date `(y, m, d)` (counting from 0001-01-01 = 0);
models the day component of `datetime` subtraction. -/
def toRataDie : Nat × Nat × Nat → Int
  | (y, m, d) =>
    (365 * (y - 1) + (y - 1) / 4 + (y - 1) / 400 + daysBeforeMonth y m
      + (d - 1) : Nat) - ((y - 1) / 100 : Nat)

/-- Digits to a natural number. -/
def digitsToNat (s : Str) : Nat :=
  s.foldl (fun acc c => 10 * acc + (c.toNat - '0'.toNat)) 0

/-- `datetime.strptime(s, "%Y-%m-%d")` on a string: `%Y` is exactly four
digits, `%m` one or two digits in 1..12, `%d` one or two digits in 1..31,
the whole string must be consumed, and the resulting date must be a valid
calendar date with year ≥ 1 (otherwise `ValueError`, i.e. `none`). -/
def parseYmd (s : Str) : Option (Nat × Nat × Nat) :=
  match s.splitOn '-' with
  | [ys, ms, ds] =>
    if ys.length = 4 ∧ ys.all Char.isDigit ∧
       1 ≤ ms.length ∧ ms.length ≤ 2 ∧ ms.all Char.isDigit ∧
       1 ≤ ds.length ∧ ds.length ≤ 2 ∧ ds.all Char.isDigit then
      let y := digitsToNat ys
      let m := digitsToNat ms
      let d := digitsToNat ds
      if 1 ≤ y ∧ 1 ≤ m ∧ m ≤ 12 ∧ 1 ≤ d ∧ d ≤ daysInMonth y m then
        some (y, m, d)
      else none
    else none
  | _ => none

/-- `datetime.strptime(v, "%Y-%m-%d")` on an arbitrary value: non-strings
raise `TypeError` (modelled as `none`). -/
def strptimeYmd : PyVal → Option (Nat × Nat × Nat)
  | PyVal.vstr s => parseYmd s
  | _ => none

/-- `DEFAULT_DATE_TOLERANCE_DAYS = 1`. -/
def DEFAULT_DATE_TOLERANCE_DAYS : Int := 1

/-- `dates_within_range` from `src/match.py` lines 189-200: the
`try/except (ValueError, TypeError)` is modelled by the `Option` match
(any parse failure yields `false`, and the function is total). -/
def dates_within_range (date1 date2 : PyVal) (days : Int) : Bool :=
  match strptimeYmd date1, strptimeYmd date2 with
  | some d1, some d2 => ((toRataDie d1 - toRataDie d2).natAbs : Int) ≤ days
  | _, _ => false

/-- The `data` payload of an attachment.  A field that may be present with a
Python-`None` value is `Option (Option _)`: outer `none` = key absent (for the
`"key" in data` tests), inner `none` = key present with value `None`. -/
structure AttData where
  reference : Option Str
  total_amount : Option ℚ
  invoicing_date : Option PyVal
  due_date : Option PyVal
  receiving_date : Option PyVal
  supplier : Option (Option Str)
  recipient : Option (Option Str)
deriving DecidableEq

/-- An attachment record (the `type` key is never branched on). -/
structure Attachment where
  data : AttData
deriving DecidableEq

/-- A transaction record.  `amount` is mandatory (caller contract); `date`
may be any value (it is only ever fed to `dates_within_range`). -/
structure Transaction where
  reference : Option Str
  date : PyVal
  amount : ℚ
  contact : Option Str
deriving DecidableEq

/-- `get_counterparty` from `src/match.py` lines 61-78: `supplier` wins over
`recipient`; either may carry a `None` value. -/
def get_counterparty (attachment : Attachment) : Option Str :=
  match attachment.data.supplier with
  | some v => v
  | none =>
    match attachment.data.recipient with
    | some v => v
    | none => none

/-- `get_attachment_dates` from `src/match.py` lines 203-218: present date
fields in the fixed order invoicing, due, receiving. -/
def get_attachment_dates (attachment : Attachment) : List PyVal :=
  (attachment.data.invoicing_date.toList) ++
  (attachment.data.due_date.toList) ++
  (attachment.data.receiving_date.toList)

/-- `is_direction_compatible` from `src/match.py` lines 221-234. -/
def is_direction_compatible (tx_amount : ℚ) (attachment : Attachment) : Bool :=
  if tx_amount < 0 then attachment.data.supplier.isSome
  else attachment.data.recipient.isSome

/-- `POINTS_DATE_MATCH = 2`. -/
def POINTS_DATE_MATCH : Nat := 2

/-- `POINTS_NAME_MATCH = 2`. -/
def POINTS_NAME_MATCH : Nat := 2

/-- `POINTS_NULL_CONTACT_BONUS = 1`. -/
def POINTS_NULL_CONTACT_BONUS : Nat := 1

/-- `MAX_POINTS = 5`. -/
def MAX_POINTS : Nat :=
  POINTS_DATE_MATCH + POINTS_NAME_MATCH + POINTS_NULL_CONTACT_BONUS

/-- `MIN_MATCH_CONFIDENCE = 0.4`. -/
def MIN_MATCH_CONFIDENCE : ℚ := 2 / 5

/-- `_score_match` from `src/match.py` lines 237-314, generic in the type of
`target_item`.  The reference shortcut uses Python truthiness (`None` and
`""` are falsy). -/
def score_match {α : Type} (source_amount : ℚ) (source_date : PyVal)
    (source_contact source_ref : Option Str) (target_amount : ℚ)
    (target_dates : List PyVal) (target_counterparty target_ref : Option Str)
    (target_item : α) : Option (ℚ × α) :=
  if truthyStr source_ref && truthyStr target_ref &&
      decide (source_ref = target_ref) then
    some (1, target_item)
  else if !amounts_match source_amount target_amount then
    none
  else
    let date_matches :=
      target_dates.any (fun td =>
        dates_within_range source_date td DEFAULT_DATE_TOLERANCE_DAYS)
    let name_matches := names_match source_contact target_counterparty
    let points : Nat :=
      (if date_matches then POINTS_DATE_MATCH else 0) +
      (if name_matches then POINTS_NAME_MATCH else 0) +
      (if (source_contact.isNone || target_counterparty.isNone) && date_matches
        then POINTS_NULL_CONTACT_BONUS else 0)
    if source_contact.isSome && target_counterparty.isSome &&
        !name_matches && date_matches then
      none
    else
      let confidence : ℚ := (points : ℚ) / (MAX_POINTS : ℚ)
      if MIN_MATCH_CONFIDENCE ≤ confidence then some (confidence, target_item)
      else none

/-- Descending-by-confidence comparison used to model the stable
`candidates.sort(key=lambda x: x[0], reverse=True)`. -/
def confGE {α : Type} (x y : ℚ × α) : Prop := y.1 ≤ x.1

instance {α : Type} : DecidableRel (@confGE α) :=
  fun x y => inferInstanceAs (Decidable (y.1 ≤ x.1))

instance {α : Type} : IsTotal (ℚ × α) confGE :=
  ⟨fun a b => by unfold confGE; exact le_total b.1 a.1⟩

instance {α : Type} : IsTrans (ℚ × α) confGE :=
  ⟨fun _ _ _ hab hbc => by unfold confGE at *; exact le_trans hbc hab⟩

/-- The resolve phase shared by both matchers (lines 371-383 and 443-455):
sort candidates by confidence descending, return `none` on an empty list or
a tie between the top two, else the top candidate. -/
def resolveCandidates {α : Type} (cands : List (ℚ × α)) : Option α :=
  match List.insertionSort confGE cands with
  | [] => none
  | [x] => some x.2
  | x :: y :: _ => if x.1 = y.1 then none else some x.2

/-- The reference pass of `find_attachment` (lines 333-337): first attachment
whose normalized reference is truthy and equal to the query's. -/
def refScanA (txRef : Option Str) : List Attachment → Option Attachment
  | [] => none
  | a :: rest =>
    let attRef := normalize_reference a.data.reference
    if truthyStr attRef && decide (txRef = attRef) then some a
    else refScanA txRef rest

/-- The scored pass of `find_attachment` (lines 340-369): direction filter,
field extraction, scorer with both reference arguments `None`. -/
def scoredCandidatesA (tx : Transaction) (atts : List Attachment) :
    List (ℚ × Attachment) :=
  atts.filterMap (fun a =>
    if is_direction_compatible tx.amount a then
      score_match tx.amount tx.date tx.contact none
        (a.data.total_amount.getD 0) (get_attachment_dates a)
        (get_counterparty a) none a
    else none)

/-- `find_attachment` from `src/match.py` lines 317-383. -/
def find_attachment (tx : Transaction) (atts : List Attachment) :
    Option Attachment :=
  let txRef := normalize_reference tx.reference
  if truthyStr txRef then
    match refScanA txRef atts with
    | some a => some a
    | none => resolveCandidates (scoredCandidatesA tx atts)
  else resolveCandidates (scoredCandidatesA tx atts)

/-- The reference pass of `find_transaction` (lines 401-405). -/
def refScanT (attRef : Option Str) : List Transaction → Option Transaction
  | [] => none
  | t :: rest =>
    let txRef := normalize_reference t.reference
    if truthyStr txRef && decide (attRef = txRef) then some t
    else refScanT attRef rest

/-- The per-candidate best-over-dates fold of `find_transaction`
(lines 424-438): keep the first result with the strictly highest
confidence. -/
def bestResult {α : Type} (rs : List (Option (ℚ × α))) : Option (ℚ × α) :=
  rs.foldl (fun best r =>
    match r with
    | none => best
    | some x =>
      match best with
      | none => some x
      | some b => if b.1 < x.1 then some x else some b) none

/-- The scored pass of `find_transaction` (lines 408-441): an attachment with
no dates is skipped; each candidate transaction is scored once per
attachment date and only its best result is kept. -/
def scoredCandidatesT (att : Attachment) (txs : List Transaction) :
    List (ℚ × Transaction) :=
  let attDates := get_attachment_dates att
  let attAmount := att.data.total_amount.getD 0
  let attCp := get_counterparty att
  txs.filterMap (fun t =>
    if is_direction_compatible t.amount att then
      if attDates.isEmpty then none
      else
        bestResult (attDates.map (fun ad =>
          score_match attAmount ad attCp none t.amount [t.date] t.contact
            none t))
    else none)

/-- `find_transaction` from `src/match.py` lines 386-455. -/
def find_transaction (att : Attachment) (txs : List Transaction) :
    Option Transaction :=
  let attRef := normalize_reference att.data.reference
  if truthyStr attRef then
    match refScanT attRef txs with
    | some t => some t
    | none => resolveCandidates (scoredCandidatesT att txs)
  else resolveCandidates (scoredCandidatesT att txs)


lemma ne_space_of_mem_removeSpaces {c : Char} {s : Str} (h : c ∈ removeSpaces s) :
    c ≠ ' ' := by
  have := List.mem_filter.mp h
  simpa using this.2

lemma removeSpaces_of_no_space {s : Str} (h : ∀ c ∈ s, c ≠ ' ') :
    removeSpaces s = s :=
  List.filter_eq_self.mpr (fun c hc => by simpa using h c hc)

lemma lstrip0_head_ne_zero {s z : Str} {c : Char} (h : lstrip0 s = c :: z) :
    c ≠ '0' := by
  have hne : s.dropWhile (fun d => d = '0') ≠ [] := by
    rw [lstrip0] at h; rw [h]; simp
  have hd := List.head_dropWhile_not (fun d => d = '0') s hne
  rw [lstrip0] at h
  have hc : (s.dropWhile (fun d => d = '0')).head hne = c := by
    simp [h]
  rw [hc] at hd
  simpa using hd

lemma normalize_reference_some_ne_nil {o : Option Str} {r : Str}
    (h : normalize_reference o = some r) : r ≠ [] := by
  match o with
  | none => simp [normalize_reference] at h
  | some s =>
    rw [normalize_reference] at h
    rcases hrs : removeSpaces s with _ | ⟨c, cs⟩ <;> rw [hrs] at h
    · simp at h
    · simp only at h
      split at h
      · rcases hdw : (c :: cs).dropWhile Char.isAlpha with _ | ⟨d, ds⟩ <;>
          rw [hdw] at h
        · simp at h; simp [← h]
        · simp at h
          rcases h with ⟨rfl⟩
          rcases hts : (c :: cs).takeWhile Char.isAlpha with _ | ⟨e, es⟩
          · rw [List.takeWhile_cons] at hts
            split at hts <;> simp_all
          · simp [hts]
      · simp at h
        rcases hls : lstrip0 (c :: cs) with _ | ⟨d, ds⟩ <;> rw [hls] at h <;>
          simp [← h]


lemma normalize_reference_eval {s : Str} {c : Char} {cs : Str}
    (h : removeSpaces s = c :: cs) :
    normalize_reference (some s) =
      (if c.isAlpha then
        match (c :: cs).dropWhile Char.isAlpha with
        | [] => some (c :: cs)
        | _ :: _ =>
          some ((c :: cs).takeWhile Char.isAlpha ++
            (match lstrip0 ((c :: cs).dropWhile Char.isAlpha) with
             | [] => ['0'] | z => z))
       else some (match lstrip0 (c :: cs) with | [] => ['0'] | z => z)) := by
  rw [normalize_reference, h]


/-- Claim C6, amended: for a reference whose space-stripped form is a nonempty
alphabetic prefix followed by a remainder, if the remainder is nonempty and
all zeros the result is the prefix followed by `"0"`; but if the remainder is
empty (all-alphabetic input) the result is the input unchanged, with no `"0"`
appended (the original claim's `"RF" → "RF0"` is false: `"RF" → "RF"`). -/
theorem normalize_alpha_prefix_cases (s p rest : Str)
    (hsplit : removeSpaces s = p ++ rest) (hp : p ≠ [])
    (halpha : ∀ c ∈ p, Char.isAlpha c = true) :
    ((rest ≠ [] ∧ ∀ c ∈ rest, c = '0') →
      normalize_reference (some s) = some (p ++ ['0'])) ∧
    (rest = [] → normalize_reference (some s) = some p) := by
  obtain ⟨c, p', rfl⟩ := List.exists_cons_of_ne_nil hp
  have hc : Char.isAlpha c = true := halpha c (by simp)
  have hred := @normalize_reference_eval s c (p' ++ rest)
    (by simpa using hsplit)
  have htw : ((c :: p') ++ rest).takeWhile Char.isAlpha =
      (c :: p') ++ rest.takeWhile Char.isAlpha :=
    List.takeWhile_append_of_pos halpha
  have hdw : ((c :: p') ++ rest).dropWhile Char.isAlpha =
      rest.dropWhile Char.isAlpha :=
    List.dropWhile_append_of_pos halpha
  constructor
  · rintro ⟨hrne, hzeros⟩
    obtain ⟨r0, rest', rfl⟩ := List.exists_cons_of_ne_nil hrne
    have hr0 : r0 = '0' := hzeros r0 (by simp)
    have hr0a : Char.isAlpha r0 = false := by rw [hr0]; decide
    have hdrop : (r0 :: rest').dropWhile Char.isAlpha = r0 :: rest' := by
      rw [List.dropWhile_cons_of_neg (by simp [hr0a])]
    have htake : (r0 :: rest').takeWhile Char.isAlpha = [] := by
      rw [List.takeWhile_cons_of_neg (by simp [hr0a])]
    have hls : lstrip0 (r0 :: rest') = [] := by
      rw [lstrip0, List.dropWhile_eq_nil_iff]
      intro x hx
      simp [hzeros x hx]
    rw [hred, if_pos hc]
    simp only [List.cons_append] at hdw htw ⊢
    rw [hdw, hdrop]
    simp only [htw, htake, List.append_nil]
    rw [hls]
    simp
  · rintro rfl
    rw [hred, if_pos hc]
    have hdw2 : List.dropWhile Char.isAlpha (c :: (p' ++ ([] : Str))) = [] := by
      simp only [List.cons_append] at hdw
      rw [hdw]; rfl
    rw [hdw2]
    simp


lemma no_space_of_subset_removeSpaces {s : Str} {l : Str}
    (hsub : l ⊆ removeSpaces s) : ∀ c ∈ l, c ≠ ' ' :=
  fun _ hc => ne_space_of_mem_removeSpaces (hsub hc)

/-- Claim C8, amended: normalization is idempotent for null and for every
string whose space-stripped form has all alphabetic characters in the leading
alphabetic run (no letter occurs after a non-letter) — the counterexample
`"0R00"` violates exactly this condition. -/
theorem normalize_idempotent_on (o : Option Str)
    (h : ∀ s, o = some s →
      ∀ c ∈ (removeSpaces s).dropWhile Char.isAlpha, Char.isAlpha c = false) :
    normalize_reference (normalize_reference o) = normalize_reference o := by
  match o with
  | none => rfl
  | some s =>
    have h' := h s rfl
    rcases hs' : removeSpaces s with _ | ⟨c, cs⟩
    · have hres : normalize_reference (some s) = none := by
        rw [normalize_reference, hs']
      rw [hres]
      rfl
    · rw [hs'] at h'
      have hnosp : ∀ x ∈ c :: cs, x ≠ ' ' := by
        intro x hx
        exact ne_space_of_mem_removeSpaces (hs' ▸ hx)
      have hred := normalize_reference_eval hs'
      by_cases hc : Char.isAlpha c = true
      · rcases hrest : (c :: cs).dropWhile Char.isAlpha with _ | ⟨d, ds⟩
        · -- all-alphabetic input: result is the input itself
          have hall : ∀ x ∈ c :: cs, Char.isAlpha x = true := by
            rw [← List.dropWhile_eq_nil_iff]; exact hrest
          have hres : normalize_reference (some s) = some (c :: cs) := by
            rw [hred, if_pos hc, hrest]
          rw [hres]
          have hrs2 : removeSpaces (c :: cs) = c :: cs :=
            removeSpaces_of_no_space hnosp
          rw [normalize_reference_eval hrs2, if_pos hc, hrest]
        · -- alphabetic prefix with a nonempty remainder
          have hd : Char.isAlpha d = false := h' d (by rw [hrest]; simp)
          have hsubdd : d :: ds ⊆ c :: cs := by
            rw [← hrest]; exact List.dropWhile_subset _
          have hptw : (c :: cs).takeWhile Char.isAlpha =
              c :: cs.takeWhile Char.isAlpha :=
            List.takeWhile_cons_of_pos hc
          have hpalpha : ∀ x ∈ (c :: cs).takeWhile Char.isAlpha,
              Char.isAlpha x = true := fun x hx => List.mem_takeWhile_imp hx
          have hpsub : (c :: cs).takeWhile Char.isAlpha ⊆ c :: cs :=
            List.takeWhile_subset _
          rcases hnum : lstrip0 (d :: ds) with _ | ⟨z, zs⟩
          · -- remainder strips to nothing: result is prefix ++ "0"
            have hres : normalize_reference (some s) =
                some ((c :: cs).takeWhile Char.isAlpha ++ ['0']) := by
              rw [hred, if_pos hc, hrest]
              rw [hnum]
            rw [hres]
            have hnosp2 : ∀ x ∈ (c :: cs).takeWhile Char.isAlpha ++ ['0'],
                x ≠ ' ' := by
              intro x hx
              rcases List.mem_append.mp hx with hx | hx
              · exact hnosp x (hpsub hx)
              · simp at hx; simp [hx]
            have hrs2 : removeSpaces ((c :: cs).takeWhile Char.isAlpha ++ ['0']) =
                (c :: cs).takeWhile Char.isAlpha ++ ['0'] :=
              removeSpaces_of_no_space hnosp2
            rw [hptw] at hrs2
            simp only [List.cons_append] at hrs2
            rw [hptw]
            simp only [List.cons_append]
            rw [normalize_reference_eval hrs2, if_pos hc]
            have htw2 : ((c :: cs.takeWhile Char.isAlpha) ++ ['0']).takeWhile
                Char.isAlpha = (c :: cs.takeWhile Char.isAlpha) ++
                  (['0'] : Str).takeWhile Char.isAlpha := by
              apply List.takeWhile_append_of_pos
              rw [← hptw]; exact hpalpha
            have hdw2 : ((c :: cs.takeWhile Char.isAlpha) ++ ['0']).dropWhile
                Char.isAlpha = (['0'] : Str).dropWhile Char.isAlpha := by
              apply List.dropWhile_append_of_pos
              rw [← hptw]; exact hpalpha
            simp only [List.cons_append] at htw2 hdw2 ⊢
            rw [hdw2]
            have : (['0'] : Str).dropWhile Char.isAlpha = ['0'] := by decide
            rw [this]
            rw [htw2]
            have : (['0'] : Str).takeWhile Char.isAlpha = [] := by decide
            rw [this]
            have : lstrip0 ['0'] = [] := by decide
            rw [this]
            simp [hptw]
          · -- remainder strips to a nonzero-headed tail
            have hz0 : z ≠ '0' := lstrip0_head_ne_zero hnum
            have hzsub : z :: zs ⊆ d :: ds := by
              rw [← hnum, lstrip0]; exact List.dropWhile_subset _
            have hzalpha : Char.isAlpha z = false :=
              h' z (hrest ▸ hzsub (by simp))
            have hres : normalize_reference (some s) =
                some ((c :: cs).takeWhile Char.isAlpha ++ (z :: zs)) := by
              rw [hred, if_pos hc, hrest]
              rw [hnum]
            rw [hres]
            have hnosp2 : ∀ x ∈ (c :: cs).takeWhile Char.isAlpha ++ (z :: zs),
                x ≠ ' ' := by
              intro x hx
              rcases List.mem_append.mp hx with hx | hx
              · exact hnosp x (hpsub hx)
              · exact hnosp x (hsubdd (hzsub hx))
            have hrs2 : removeSpaces ((c :: cs).takeWhile Char.isAlpha ++ (z :: zs)) =
                (c :: cs).takeWhile Char.isAlpha ++ (z :: zs) :=
              removeSpaces_of_no_space hnosp2
            rw [hptw] at hrs2
            simp only [List.cons_append] at hrs2
            rw [hptw]
            simp only [List.cons_append]
            rw [normalize_reference_eval hrs2, if_pos hc]
            have htw2 : ((c :: cs.takeWhile Char.isAlpha) ++ (z :: zs)).takeWhile
                Char.isAlpha = (c :: cs.takeWhile Char.isAlpha) ++
                  (z :: zs).takeWhile Char.isAlpha := by
              apply List.takeWhile_append_of_pos
              rw [← hptw]; exact hpalpha
            have hdw2 : ((c :: cs.takeWhile Char.isAlpha) ++ (z :: zs)).dropWhile
                Char.isAlpha = (z :: zs).dropWhile Char.isAlpha := by
              apply List.dropWhile_append_of_pos
              rw [← hptw]; exact hpalpha
            have hztw : (z :: zs).takeWhile Char.isAlpha = [] :=
              List.takeWhile_cons_of_neg (by simp [hzalpha])
            have hzdw : (z :: zs).dropWhile Char.isAlpha = z :: zs :=
              List.dropWhile_cons_of_neg (by simp [hzalpha])
            simp only [List.cons_append] at htw2 hdw2 ⊢
            rw [hdw2, hzdw]
            rw [htw2, hztw]
            have hls2 : lstrip0 (z :: zs) = z :: zs := by
              rw [lstrip0]
              exact List.dropWhile_cons_of_neg (by simp [hz0])
            rw [hls2]
            simp [hptw]
      · -- no alphabetic prefix: everything after leading zeros is kept
        have hcf : Char.isAlpha c = false := by
          simpa using hc
        have hdwall : (c :: cs).dropWhile Char.isAlpha = c :: cs :=
          List.dropWhile_cons_of_neg (by simp [hcf])
        rw [hdwall] at h'
        rcases hnum : lstrip0 (c :: cs) with _ | ⟨z, zs⟩
        · have hres : normalize_reference (some s) = some ['0'] := by
            rw [hred, if_neg (by simp [hcf]), hnum]
          rw [hres]
          decide
        · have hz0 : z ≠ '0' := lstrip0_head_ne_zero hnum
          have hzsub : z :: zs ⊆ c :: cs := by
            rw [← hnum, lstrip0]; exact List.dropWhile_subset _
          have hzalpha : Char.isAlpha z = false := h' z (hzsub (by simp))
          have hres : normalize_reference (some s) = some (z :: zs) := by
            rw [hred, if_neg (by simp [hcf]), hnum]
          rw [hres]
          have hnosp2 : ∀ x ∈ z :: zs, x ≠ ' ' := fun x hx => hnosp x (hzsub hx)
          have hrs2 : removeSpaces (z :: zs) = z :: zs :=
            removeSpaces_of_no_space hnosp2
          rw [normalize_reference_eval hrs2, if_neg (by simp [hzalpha])]
          have hls2 : lstrip0 (z :: zs) = z :: zs := by
            rw [lstrip0]
            exact List.dropWhile_cons_of_neg (by simp [hz0])
          rw [hls2]


/-- Claim C5, evaluation at the failing input: the code removes only the space
character (`replace(" ", "")`), so the tab in `"98\t76"` survives
normalization even though it is a whitespace character, contradicting the
spec's "all whitespace characters are removed first" and the code's own
comment. -/
theorem normalize_keeps_tab :
    normalize_reference (some ['9', '8', '\t', '7', '6']) =
      some ['9', '8', '\t', '7', '6'] ∧
    isPySpace '\t' = true := by
  decide

/-- Claim C6, counterexample: an all-alphabetic reference such as `"RF"`
normalizes to itself, not to `"RF0"` as the claim states. -/
theorem normalize_all_alpha_counterexample :
    normalize_reference (some ['R', 'F']) = some ['R', 'F'] ∧
    normalize_reference (some ['R', 'F']) ≠ some ['R', 'F', '0'] := by
  decide

/-- Claim C6, witness: `"RF000"` normalizes to `"RF0"` and `"RF"` to `"RF"`,
by the amended theorem at concrete inputs. -/
theorem normalize_alpha_prefix_cases_witness :
    normalize_reference (some ['R', 'F', '0', '0', '0']) = some ['R', 'F', '0'] ∧
    normalize_reference (some ['R', 'F']) = some ['R', 'F'] :=
  ⟨(normalize_alpha_prefix_cases ['R', 'F', '0', '0', '0'] ['R', 'F']
      ['0', '0', '0'] (by decide) (by decide) (by decide)).1 (by decide),
   (normalize_alpha_prefix_cases ['R', 'F'] ['R', 'F'] []
      (by decide) (by decide) (by decide)).2 rfl⟩

/-- Claim C8, counterexample: normalization is not idempotent on `"0R00"`:
the first pass strips the leading zero giving `"R00"`, and the second pass
then treats `"R"` as an alphabetic prefix and strips the remainder's zeros,
giving `"R0"`. -/
theorem normalize_not_idempotent_counterexample :
    normalize_reference (normalize_reference (some ['0', 'R', '0', '0'])) ≠
      normalize_reference (some ['0', 'R', '0', '0']) := by
  decide

/-- Claim C8, witness: the amended idempotence theorem applied to the
concrete input `"0042"`. -/
theorem normalize_idempotent_on_witness :
    normalize_reference (normalize_reference (some ['0', '0', '4', '2'])) =
      normalize_reference (some ['0', '0', '4', '2']) :=
  normalize_idempotent_on (some ['0', '0', '4', '2'])
    (by intro s hs; cases hs; decide)

lemma refScanA_first {r : Str} (hr : r ≠ []) (pre post : List Attachment)
    (a : Attachment)
    (hpre : ∀ b ∈ pre, normalize_reference b.data.reference ≠ some r)
    (ha : normalize_reference a.data.reference = some r) :
    refScanA (some r) (pre ++ a :: post) = some a := by
  induction pre with
  | nil =>
    simp only [List.nil_append, refScanA]
    rw [ha]
    rw [if_pos]
    simp [truthyStr, hr]
  | cons b bs ih =>
    simp only [List.cons_append, refScanA]
    rw [if_neg]
    · exact ih (fun x hx => hpre x (by simp [hx]))
    · have hb := hpre b (by simp)
      simp [Ne.symm hb]

lemma refScanT_first {r : Str} (hr : r ≠ []) (pre post : List Transaction)
    (t : Transaction)
    (hpre : ∀ b ∈ pre, normalize_reference b.reference ≠ some r)
    (ht : normalize_reference t.reference = some r) :
    refScanT (some r) (pre ++ t :: post) = some t := by
  induction pre with
  | nil =>
    simp only [List.nil_append, refScanT]
    rw [ht]
    rw [if_pos]
    simp [truthyStr, hr]
  | cons b bs ih =>
    simp only [List.cons_append, refScanT]
    rw [if_neg]
    · exact ih (fun x hx => hpre x (by simp [hx]))
    · have hb := hpre b (by simp)
      simp [Ne.symm hb]

/-- Claim C1: when the query's reference normalizes to a non-null value and
some candidate's normalized reference equals it, `find_attachment`
(resp. `find_transaction`) returns the first such candidate in list order —
for every amount, date, contact and direction configuration, with no
ambiguity check. -/
theorem find_first_reference_match :
    (∀ (tx : Transaction) (pre post : List Attachment) (a : Attachment) (r : Str),
      normalize_reference tx.reference = some r →
      (∀ b ∈ pre, normalize_reference b.data.reference ≠ some r) →
      normalize_reference a.data.reference = some r →
      find_attachment tx (pre ++ a :: post) = some a) ∧
    (∀ (att : Attachment) (pre post : List Transaction) (t : Transaction) (r : Str),
      normalize_reference att.data.reference = some r →
      (∀ b ∈ pre, normalize_reference b.reference ≠ some r) →
      normalize_reference t.reference = some r →
      find_transaction att (pre ++ t :: post) = some t) := by
  constructor
  · intro tx pre post a r htx hpre ha
    have hr : r ≠ [] := normalize_reference_some_ne_nil htx
    rw [find_attachment]
    rw [htx]
    rw [if_pos (by simp [truthyStr, hr])]
    rw [refScanA_first hr pre post a hpre ha]
  · intro att pre post t r hatt hpre ht
    have hr : r ≠ [] := normalize_reference_some_ne_nil hatt
    rw [find_transaction]
    rw [hatt]
    rw [if_pos (by simp [truthyStr, hr])]
    rw [refScanT_first hr pre post t hpre ht]


lemma toLower_of_isPySpace {d : Char} (h : isPySpace d = true) :
    Char.toLower d = d := by
  simp only [isPySpace, Bool.or_eq_true, decide_eq_true_eq] at h
  rcases h with ((((rfl | rfl) | rfl) | rfl) | rfl) | rfl <;> decide

lemma pyContains_nil_left (l : Str) : pyContains [] l = true := by
  cases l <;> rfl

/-- Claim C10: if the first name is empty or all whitespace, it strips to the
empty string, which is a substring of everything, so the containment rule
fires and `names_match` returns true for every second name. -/
theorem names_match_blank_name (s1 : Str) (h : ∀ c ∈ s1, isPySpace c = true) :
    ∀ s2 : Str, names_match (some s1) (some s2) = true := by
  intro s2
  have hlow : ∀ c ∈ pyLower s1, isPySpace c = true := by
    intro c hc
    obtain ⟨d, hd, rfl⟩ := List.mem_map.mp hc
    rw [toLower_of_isPySpace (h d hd)]
    exact h d hd
  have hstrip : pyStrip (pyLower s1) = [] := by
    rw [pyStrip]
    rw [List.dropWhile_eq_nil_iff.mpr (fun x hx => hlow x hx)]
    rfl
  rw [names_match]
  rw [hstrip, pyContains_nil_left]
  simp


lemma le_foldl_max (t a : ℚ) (l : List ℚ) :
    t ≤ l.foldl max a ↔ t ≤ a ∨ ∃ x ∈ l, t ≤ x := by
  induction l generalizing a with
  | nil => simp
  | cons x xs ih =>
    simp only [List.foldl_cons]
    rw [ih]
    constructor
    · rintro (h | h)
      · rcases le_max_iff.mp h with h | h
        · exact Or.inl h
        · exact Or.inr ⟨x, by simp, h⟩
      · obtain ⟨y, hy, hty⟩ := h
        exact Or.inr ⟨y, by simp [hy], hty⟩
    · rintro (h | ⟨y, hy, hty⟩)
      · exact Or.inl (le_max_iff.mpr (Or.inl h))
      · rcases List.mem_cons.mp hy with rfl | hy
        · exact Or.inl (le_max_iff.mpr (Or.inr hty))
        · exact Or.inr ⟨y, hy, hty⟩

lemma bestSimilarity_ge_iff (w : Str) (l : List Str) {t : ℚ} (ht : 0 < t) :
    (t ≤ bestSimilarity w l) ↔ ∃ v ∈ l, t ≤ similarity w v := by
  rw [bestSimilarity, le_foldl_max]
  constructor
  · rintro (h | ⟨x, hx, hxt⟩)
    · linarith
    · obtain ⟨v, hv, rfl⟩ := List.mem_map.mp hx
      exact ⟨v, hv, hxt⟩
  · rintro ⟨v, hv, hvt⟩
    exact Or.inr ⟨similarity w v, List.mem_map_of_mem _ hv, hvt⟩

lemma wordThreshold_pos (w : Str) : 0 < wordThreshold w := by
  rw [wordThreshold]
  split
  · rw [FUZZY_MATCH_THRESHOLD_LONG]; norm_num
  · rw [FUZZY_MATCH_THRESHOLD_SHORT]; norm_num

/-- Claim C4: when neither normalized name contains the other and both sides
keep at least one significant word, `names_match` returns true iff every
significant word of the shorter side reaches, against some word of the longer
side, similarity `1 - editDistance/maxLen` at or above its threshold (1.0 for
words of length ≤ 6, 0.85 otherwise). -/
theorem names_match_fuzzy_iff (a b : Str)
    (hno : (pyContains (pyStrip (pyLower a)) (pyStrip (pyLower b)) ||
            pyContains (pyStrip (pyLower b)) (pyStrip (pyLower a))) = false)
    (h1 : significantWords (pyStrip (pyLower a)) ≠ [])
    (h2 : significantWords (pyStrip (pyLower b)) ≠ []) :
    names_match (some a) (some b) = true ↔
      ∀ w ∈ shorterSide (significantWords (pyStrip (pyLower a)))
              (significantWords (pyStrip (pyLower b))),
        ∃ v ∈ longerSide (significantWords (pyStrip (pyLower a)))
                (significantWords (pyStrip (pyLower b))),
          wordThreshold w ≤ similarity w v := by
  have he1 : (significantWords (pyStrip (pyLower a))).isEmpty = false :=
    List.isEmpty_eq_false.mpr h1
  have he2 : (significantWords (pyStrip (pyLower b))).isEmpty = false :=
    List.isEmpty_eq_false.mpr h2
  have hred : names_match (some a) (some b) =
      decide ((shorterSide (significantWords (pyStrip (pyLower a)))
          (significantWords (pyStrip (pyLower b)))).countP
        (fun w => decide (wordThreshold w ≤ bestSimilarity w
          (longerSide (significantWords (pyStrip (pyLower a)))
            (significantWords (pyStrip (pyLower b)))))) =
        (shorterSide (significantWords (pyStrip (pyLower a)))
          (significantWords (pyStrip (pyLower b)))).length) := by
    rw [names_match]
    simp only [hno, he1, he2]
    simp
  rw [hred]
  rw [decide_eq_true_eq]
  rw [List.countP_eq_length]
  constructor
  · intro hall w hw
    have := hall w hw
    rw [decide_eq_true_eq] at this
    exact (bestSimilarity_ge_iff w _ (wordThreshold_pos w)).mp this
  · intro hall w hw
    rw [decide_eq_true_eq]
    exact (bestSimilarity_ge_iff w _ (wordThreshold_pos w)).mpr (hall w hw)


/-- Claim C4, witness: `"kukkanen petteri"` vs `"petteri kukkanen"` — no
containment, both words significant, every shorter-side word has an exact
cross match, so `names_match` is true by the iff. -/
theorem names_match_fuzzy_iff_witness :
    names_match (some "kukkanen petteri".toList)
      (some "petteri kukkanen".toList) = true :=
  (names_match_fuzzy_iff "kukkanen petteri".toList "petteri kukkanen".toList
      (by decide) (by decide) (by decide)).mpr (by
    have hs : shorterSide
        (significantWords (pyStrip (pyLower "kukkanen petteri".toList)))
        (significantWords (pyStrip (pyLower "petteri kukkanen".toList))) =
        ["kukkanen".toList, "petteri".toList] := by decide
    have hl : longerSide
        (significantWords (pyStrip (pyLower "kukkanen petteri".toList)))
        (significantWords (pyStrip (pyLower "petteri kukkanen".toList))) =
        ["petteri".toList, "kukkanen".toList] := by decide
    rw [hs, hl]
    intro w hw
    rcases List.mem_cons.mp hw with rfl | hw
    · refine ⟨"kukkanen".toList, by simp, ?_⟩
      have h0 : levenshtein_distance "kukkanen".toList "kukkanen".toList = 0 := by
        decide
      have hlen : max ("kukkanen".toList).length ("kukkanen".toList).length = 8 := by
        decide
      rw [wordThreshold, if_pos (by decide), FUZZY_MATCH_THRESHOLD_LONG]
      rw [similarity, h0, hlen]
      norm_num
    · rcases List.mem_cons.mp hw with rfl | hw
      · refine ⟨"petteri".toList, by simp, ?_⟩
        have h0 : levenshtein_distance "petteri".toList "petteri".toList = 0 := by
          decide
        have hlen : max ("petteri".toList).length ("petteri".toList).length = 7 := by
          decide
        rw [wordThreshold, if_pos (by decide), FUZZY_MATCH_THRESHOLD_LONG]
        rw [similarity, h0, hlen]
        norm_num
      · simp at hw)


/-- Claim C7: `dates_within_range` is total (the `try/except` is modelled by
the `Option` match, so no error reaches the caller); any parse failure on
either argument — non-string value or string not accepted by
`strptime("%Y-%m-%d")` — yields false, and on two well-formed dates the
result is true iff the absolute difference in whole days is at most the
tolerance. -/
theorem dates_within_range_total_spec :
    (∀ (v1 v2 : PyVal) (days : Int),
      (strptimeYmd v1 = none ∨ strptimeYmd v2 = none) →
        dates_within_range v1 v2 days = false) ∧
    (∀ (v1 v2 : PyVal) (days : Int) (t1 t2 : Nat × Nat × Nat),
      strptimeYmd v1 = some t1 → strptimeYmd v2 = some t2 →
      (dates_within_range v1 v2 days = true ↔
        ((toRataDie t1 - toRataDie t2).natAbs : Int) ≤ days)) := by
  constructor
  · intro v1 v2 days h
    rw [dates_within_range]
    rcases hx : strptimeYmd v1 with _ | t1
    · rfl
    · rcases hy : strptimeYmd v2 with _ | t2
      · rfl
      · exfalso
        rcases h with h | h
        · rw [h] at hx; exact Option.noConfusion hx
        · rw [h] at hy; exact Option.noConfusion hy
  · intro v1 v2 days t1 t2 h1 h2
    rw [dates_within_range, h1, h2]
    simp

/-- Claim C7, witness: an unparsable string yields false, and 2024-06-15 vs
2024-06-16 is within the default one-day tolerance. -/
theorem dates_within_range_total_spec_witness :
    dates_within_range (PyVal.vstr "oops".toList)
      (PyVal.vstr "2024-06-15".toList) 1 = false ∧
    dates_within_range (PyVal.vstr "2024-06-15".toList)
      (PyVal.vstr "2024-06-16".toList) 1 = true :=
  ⟨dates_within_range_total_spec.1 _ _ 1 (Or.inl (by decide)),
   (dates_within_range_total_spec.2 _ _ 1 (2024, 6, 15) (2024, 6, 16)
      (by decide) (by decide)).mpr (by decide)⟩


lemma names_match_isSome {a b : Option Str} (h : names_match a b = true) :
    a.isSome = true ∧ b.isSome = true := by
  cases a <;> cases b <;> simp_all [names_match]

/-- Claim C2: when the reference shortcut does not fire, amounts match, both
contacts are non-null, `names_match` is false, and some target date is within
tolerance of the source date, the scorer returns none despite the amount
match. -/
theorem score_match_name_mismatch_rejects {α : Type} (sa : ℚ) (sd : PyVal)
    (sc sref : Option Str) (ta : ℚ) (tds : List PyVal) (tc tref : Option Str)
    (item : α)
    (href : (truthyStr sref && truthyStr tref && decide (sref = tref)) = false)
    (hamt : amounts_match sa ta = true)
    (hsc : sc.isSome = true) (htc : tc.isSome = true)
    (hname : names_match sc tc = false)
    (hdate : ∃ td ∈ tds,
      dates_within_range sd td DEFAULT_DATE_TOLERANCE_DAYS = true) :
    score_match sa sd sc sref ta tds tc tref item = none := by
  have hdm : tds.any
      (fun td => dates_within_range sd td DEFAULT_DATE_TOLERANCE_DAYS) = true :=
    List.any_eq_true.mpr hdate
  rw [score_match]
  rw [href]
  rw [if_neg (by simp)]
  rw [hamt]
  rw [if_neg (by simp)]
  simp only [hdm, hname, hsc, htc]
  simp


lemma amounts_match_100_100 : amounts_match (100 : ℚ) 100 = true := by
  rw [amounts_match, AMOUNT_TOLERANCE, decide_eq_true_eq]
  rw [abs_of_nonneg (by norm_num : (0 : ℚ) ≤ 100)]
  rw [sub_self, abs_zero]
  norm_num

/-- Claim C2, witness: equal amounts, same-day dates, two populated contacts
with non-matching names — the scorer rejects. -/
theorem score_match_name_mismatch_rejects_witness :
    score_match (100 : ℚ) (PyVal.vstr "2024-06-15".toList)
      (some "ab cd".toList) none 100 [PyVal.vstr "2024-06-15".toList]
      (some "xy zw".toList) none () = none :=
  score_match_name_mismatch_rejects 100 (PyVal.vstr "2024-06-15".toList)
    (some "ab cd".toList) none 100 [PyVal.vstr "2024-06-15".toList]
    (some "xy zw".toList) none ()
    (by decide) amounts_match_100_100 (by decide) (by decide) (by decide)
    ⟨PyVal.vstr "2024-06-15".toList, by simp, by decide⟩


/-- Claim C9: whenever the scorer returns a result its confidence is one of
2/5, 3/5, 4/5 or 1 (a name match forces both contacts non-null, so the
null-contact bonus and the name points are mutually exclusive and nothing
falls strictly between 4/5 and 1); with both references null the reference
shortcut cannot fire and the confidence is one of 2/5, 3/5, 4/5. -/
theorem score_match_confidence_values {α : Type} (sa : ℚ) (sd : PyVal)
    (sc sref : Option Str) (ta : ℚ) (tds : List PyVal) (tc tref : Option Str)
    (item : α) (c : ℚ) (t : α)
    (h : score_match sa sd sc sref ta tds tc tref item = some (c, t)) :
    (c = 2/5 ∨ c = 3/5 ∨ c = 4/5 ∨ c = 1) ∧
    (sref = none → tref = none → (c = 2/5 ∨ c = 3/5 ∨ c = 4/5)) := by
  rw [score_match] at h
  by_cases hsh : (truthyStr sref && truthyStr tref && decide (sref = tref)) = true
  · rw [if_pos hsh] at h
    have hc : c = 1 := by
      have := Option.some.inj h
      simpa using congrArg Prod.fst this.symm
    constructor
    · exact Or.inr (Or.inr (Or.inr hc))
    · rintro rfl rfl
      simp [truthyStr] at hsh
  · rw [if_neg hsh] at h
    cases ham : amounts_match sa ta
    · rw [ham] at h
      simp at h
    · rw [ham] at h
      rw [if_neg (by simp)] at h
      have key : c = 2/5 ∨ c = 3/5 ∨ c = 4/5 := by
        cases hdm : tds.any
            (fun td => dates_within_range sd td DEFAULT_DATE_TOLERANCE_DAYS) <;>
          cases hnm : names_match sc tc <;>
          simp only [hdm, hnm, Bool.and_false, Bool.and_true, Bool.true_and,
            Bool.false_and, Bool.not_true, Bool.not_false, Bool.or_false,
            if_false, if_true, POINTS_DATE_MATCH, POINTS_NAME_MATCH,
            POINTS_NULL_CONTACT_BONUS, MAX_POINTS] at h
        · -- no date, no name: points 0, below threshold
          rw [if_neg (by simp), if_neg (by
            rw [MIN_MATCH_CONFIDENCE]; push_cast; norm_num)] at h
          exact absurd h (by simp)
        · -- no date, name only: points 2, confidence 2/5
          rw [if_neg (by simp), if_pos (by
            rw [MIN_MATCH_CONFIDENCE]; push_cast; norm_num)] at h
          have hc : c = ((0 + 2 + 0 : Nat) : ℚ) / ((2 + 2 + 1 : Nat) : ℚ) := by
            have := Option.some.inj h
            simpa using congrArg Prod.fst this.symm
          left
          rw [hc]; push_cast; norm_num
        · -- date, no name: disqualified unless a contact is null, then 3/5
          cases hb : (sc.isSome && tc.isSome)
          · have hbon : (sc.isNone || tc.isNone) = true := by
              cases sc <;> cases tc <;> simp_all
            rw [hbon] at h
            rw [if_neg (by simp [hb]), if_pos (by
              rw [MIN_MATCH_CONFIDENCE]; push_cast; norm_num)] at h
            have hc : c = ((2 + 0 + 1 : Nat) : ℚ) / ((2 + 2 + 1 : Nat) : ℚ) := by
              have := Option.some.inj h
              simpa using congrArg Prod.fst this.symm
            right; left
            rw [hc]; push_cast; norm_num
          · rw [if_pos (by simp [hb])] at h
            exact absurd h (by simp)
        · -- date and name: both contacts present, no bonus, 4/5
          obtain ⟨h1, h2⟩ := names_match_isSome hnm
          have hbon : (sc.isNone || tc.isNone) = false := by
            cases sc <;> cases tc <;> simp_all
          rw [hbon] at h
          rw [if_neg (by simp), if_pos (by
            rw [MIN_MATCH_CONFIDENCE]; push_cast; norm_num)] at h
          have hc : c = ((2 + 2 + 0 : Nat) : ℚ) / ((2 + 2 + 1 : Nat) : ℚ) := by
            have := Option.some.inj h
            simpa using congrArg Prod.fst this.symm
          right; right
          rw [hc]; push_cast; norm_num
      exact ⟨key.elim (fun k => Or.inl k)
        (fun k => k.elim (fun k2 => Or.inr (Or.inl k2))
          (fun k2 => Or.inr (Or.inr (Or.inl k2)))),
        fun _ _ => key⟩


lemma amounts_match_neg100_100 : amounts_match (-100 : ℚ) 100 = true := by
  rw [amounts_match, AMOUNT_TOLERANCE, decide_eq_true_eq]
  rw [abs_neg]
  rw [abs_of_nonneg (by norm_num : (0 : ℚ) ≤ 100)]
  rw [sub_self, abs_zero]
  norm_num

lemma score_match_eval_bonus {α : Type} (item : α) :
    score_match (-100 : ℚ) (PyVal.vstr "2024-06-15".toList) none none
      100 [PyVal.vstr "2024-06-15".toList] (some "acme oy".toList) none item =
      some (3/5, item) := by
  rw [score_match]
  rw [if_neg (by simp [truthyStr])]
  rw [amounts_match_neg100_100]
  rw [if_neg (by simp)]
  have hdm : ([PyVal.vstr "2024-06-15".toList]).any
      (fun td => dates_within_range (PyVal.vstr "2024-06-15".toList) td
        DEFAULT_DATE_TOLERANCE_DAYS) = true := by decide
  have hnm : names_match none (some "acme oy".toList) = false := rfl
  simp only [hdm, hnm, Option.isNone_none, Option.isSome_none, Bool.true_or,
    Bool.and_true, Bool.false_and, Bool.not_false, if_true, if_false,
    Bool.false_eq_true, POINTS_DATE_MATCH, POINTS_NAME_MATCH,
    POINTS_NULL_CONTACT_BONUS, MAX_POINTS]
  rw [if_pos (by rw [MIN_MATCH_CONFIDENCE]; push_cast; norm_num)]
  push_cast
  norm_num


lemma resolveCandidates_spec {α : Type} (cs : List (ℚ × α)) (h2 : 2 ≤ cs.length)
    (M : ℚ) (hmem : M ∈ cs.map Prod.fst) (hub : ∀ k ∈ cs.map Prod.fst, k ≤ M) :
    (2 ≤ (cs.map Prod.fst).count M → resolveCandidates cs = none) ∧
    (∀ c ∈ cs, c.1 = M → (cs.map Prod.fst).count M = 1 →
      resolveCandidates cs = some c.2) := by
  have hperm : List.Perm (List.insertionSort confGE cs) cs :=
    List.perm_insertionSort confGE cs
  have hsorted : List.Sorted confGE (List.insertionSort confGE cs) :=
    List.sorted_insertionSort confGE cs
  have hlen : 2 ≤ (List.insertionSort confGE cs).length := by
    rw [hperm.length_eq]; exact h2
  obtain ⟨x, y, rest, hxy⟩ : ∃ x y rest,
      List.insertionSort confGE cs = x :: y :: rest := by
    match hl : List.insertionSort confGE cs with
    | [] => rw [hl] at hlen; simp at hlen
    | [x] => rw [hl] at hlen; simp at hlen
    | x :: y :: rest => exact ⟨x, y, rest, rfl⟩
  rw [hxy] at hsorted hperm
  have hxcs : x ∈ cs := hperm.subset (by simp)
  have hycs : y ∈ cs := hperm.subset (by simp)
  have hpair := List.pairwise_cons.mp hsorted
  have hpairy := List.pairwise_cons.mp hpair.2
  have hxM : x.1 = M := by
    have hle : x.1 ≤ M := hub x.1 (List.mem_map_of_mem Prod.fst hxcs)
    obtain ⟨c, hc, hcM⟩ := List.mem_map.mp hmem
    have hcs : c ∈ x :: y :: rest := hperm.mem_iff.mpr hc
    rcases List.mem_cons.mp hcs with rfl | hcs
    · exact le_antisymm hle (le_of_eq hcM.symm)
    · have : c.1 ≤ x.1 := hpair.1 c hcs
      exact le_antisymm hle (hcM ▸ this)
  have hcount : (cs.map Prod.fst).count M =
      ((x :: y :: rest).map Prod.fst).count M :=
    ((hperm.map Prod.fst).count_eq M).symm
  have hxs : (x :: y :: rest).map Prod.fst = M :: (y :: rest).map Prod.fst := by
    simp [hxM]
  constructor
  · intro hcnt
    rw [resolveCandidates, hxy]
    show (if x.1 = y.1 then none else some x.2) = none
    rw [if_pos]
    have hcnt2 : 2 ≤ (M :: (y :: rest).map Prod.fst).count M := by
      rw [← hxs, ← hcount]; exact hcnt
    rw [List.count_cons_self] at hcnt2
    have hMmem : M ∈ (y :: rest).map Prod.fst := by
      rw [← List.count_pos_iff]; omega
    rw [List.map_cons] at hMmem
    rcases List.mem_cons.mp hMmem with hyM | hMrest
    · rw [hxM]; exact hyM
    · obtain ⟨z, hz, hzM⟩ := List.mem_map.mp hMrest
      have hzy : z.1 ≤ y.1 := hpairy.1 z hz
      have hyM : y.1 ≤ M := hub y.1 (List.mem_map_of_mem Prod.fst hycs)
      rw [hxM]
      exact le_antisymm (hzM ▸ hzy) hyM
  · intro c hc hcM hcnt
    rw [resolveCandidates, hxy]
    show (if x.1 = y.1 then none else some x.2) = some c.2
    rw [hcount, hxs, List.count_cons_self] at hcnt
    have hycount : ((y :: rest).map Prod.fst).count M = 0 := by omega
    have hyne : y.1 ≠ M := by
      intro hyM
      have hmm : M ∈ (y :: rest).map Prod.fst := by simp [← hyM]
      rw [← List.count_pos_iff] at hmm
      omega
    rw [if_neg (by rw [hxM]; exact fun h => hyne h.symm)]
    have hceq : c = x := by
      have hcs : c ∈ x :: y :: rest := hperm.mem_iff.mpr hc
      rcases List.mem_cons.mp hcs with rfl | hcs
      · rfl
      · exfalso
        have hmm : M ∈ (y :: rest).map Prod.fst := by
          rw [← hcM]
          exact List.mem_map_of_mem Prod.fst hcs
        rw [← List.count_pos_iff] at hmm
        omega
    rw [hceq]


lemma find_attachment_eq_resolve (tx : Transaction) (atts : List Attachment)
    (h : truthyStr (normalize_reference tx.reference) = false ∨
      refScanA (normalize_reference tx.reference) atts = none) :
    find_attachment tx atts = resolveCandidates (scoredCandidatesA tx atts) := by
  rw [find_attachment]
  cases htb : truthyStr (normalize_reference tx.reference)
  · rw [if_neg (by simp [htb])]
  · rw [if_pos (by simp [htb])]
    rcases h with h | h
    · rw [htb] at h; exact absurd h (by simp)
    · rw [h]

lemma find_transaction_eq_resolve (att : Attachment) (txs : List Transaction)
    (h : truthyStr (normalize_reference att.data.reference) = false ∨
      refScanT (normalize_reference att.data.reference) txs = none) :
    find_transaction att txs = resolveCandidates (scoredCandidatesT att txs) := by
  rw [find_transaction]
  cases htb : truthyStr (normalize_reference att.data.reference)
  · rw [if_neg (by simp [htb])]
  · rw [if_pos (by simp [htb])]
    rcases h with h | h
    · rw [htb] at h; exact absurd h (by simp)
    · rw [h]

/-- Claim C3: when the reference pass finds no match and the scored pass
collects at least two candidates, the matcher returns none iff the maximal
confidence is attained at least twice (the sorted top two are equal), and
otherwise returns the unique candidate with the strictly highest confidence;
stated for both `find_attachment` and `find_transaction`. -/
theorem find_tie_ambiguity :
    (∀ (tx : Transaction) (atts : List Attachment) (M : ℚ),
      (truthyStr (normalize_reference tx.reference) = false ∨
        refScanA (normalize_reference tx.reference) atts = none) →
      2 ≤ (scoredCandidatesA tx atts).length →
      M ∈ (scoredCandidatesA tx atts).map Prod.fst →
      (∀ k ∈ (scoredCandidatesA tx atts).map Prod.fst, k ≤ M) →
      ((2 ≤ ((scoredCandidatesA tx atts).map Prod.fst).count M →
          find_attachment tx atts = none) ∧
        (∀ c ∈ scoredCandidatesA tx atts, c.1 = M →
          ((scoredCandidatesA tx atts).map Prod.fst).count M = 1 →
          find_attachment tx atts = some c.2))) ∧
    (∀ (att : Attachment) (txs : List Transaction) (M : ℚ),
      (truthyStr (normalize_reference att.data.reference) = false ∨
        refScanT (normalize_reference att.data.reference) txs = none) →
      2 ≤ (scoredCandidatesT att txs).length →
      M ∈ (scoredCandidatesT att txs).map Prod.fst →
      (∀ k ∈ (scoredCandidatesT att txs).map Prod.fst, k ≤ M) →
      ((2 ≤ ((scoredCandidatesT att txs).map Prod.fst).count M →
          find_transaction att txs = none) ∧
        (∀ c ∈ scoredCandidatesT att txs, c.1 = M →
          ((scoredCandidatesT att txs).map Prod.fst).count M = 1 →
          find_transaction att txs = some c.2))) := by
  constructor
  · intro tx atts M href hlen hmem hub
    have hspec := resolveCandidates_spec (scoredCandidatesA tx atts) hlen M hmem hub
    rw [find_attachment_eq_resolve tx atts href]
    exact hspec
  · intro att txs M href hlen hmem hub
    have hspec := resolveCandidates_spec (scoredCandidatesT att txs) hlen M hmem hub
    rw [find_transaction_eq_resolve att txs href]
    exact hspec


/-- A purchase-side attachment used in concrete tie scenarios. -/
def tieAtt : Attachment :=
  ⟨⟨none, some 100, some (PyVal.vstr "2024-06-15".toList), none, none,
    some (some "acme oy".toList), none⟩⟩

/-- A reference-free outgoing transaction used in concrete tie scenarios. -/
def tieTx : Transaction :=
  ⟨none, PyVal.vstr "2024-06-15".toList, -100, none⟩

lemma scoredCandidatesA_tie_eval :
    scoredCandidatesA tieTx [tieAtt, tieAtt] =
      [((3 : ℚ)/5, tieAtt), ((3 : ℚ)/5, tieAtt)] := by
  have hf : (if is_direction_compatible tieTx.amount tieAtt then
      score_match tieTx.amount tieTx.date tieTx.contact none
        (tieAtt.data.total_amount.getD 0) (get_attachment_dates tieAtt)
        (get_counterparty tieAtt) none tieAtt
    else none) = some ((3 : ℚ)/5, tieAtt) := by
    rw [if_pos (by decide)]
    exact score_match_eval_bonus tieAtt
  rw [scoredCandidatesA]
  simp only [List.filterMap_cons, List.filterMap_nil, hf]

/-- Claim C3, witness: two identical attachments each scoring 3/5 against a
reference-free transaction tie, so `find_attachment` returns none. -/
theorem find_tie_ambiguity_witness :
    find_attachment tieTx [tieAtt, tieAtt] = none :=
  ((find_tie_ambiguity.1 tieTx [tieAtt, tieAtt] ((3 : ℚ)/5)
      (Or.inl (by decide))
      (by rw [scoredCandidatesA_tie_eval]; simp)
      (by rw [scoredCandidatesA_tie_eval]; simp)
      (by
        rw [scoredCandidatesA_tie_eval]
        intro k hk
        simp at hk
        exact le_of_eq hk)).1
    (by
      rw [scoredCandidatesA_tie_eval]
      simp [List.count_cons_self]))


/-- Claim C10, witness: a two-space name matches `"hello"`. -/
theorem names_match_blank_name_witness :
    names_match (some [' ', ' ']) (some "hello".toList) = true :=
  names_match_blank_name [' ', ' '] (by decide) "hello".toList

/-- Claim C9, witness: the theorem applied to a concrete scored-pass input
that returns confidence 3/5. -/
theorem score_match_confidence_values_witness :
    ((3 : ℚ)/5 = 2/5 ∨ (3 : ℚ)/5 = 3/5 ∨ (3 : ℚ)/5 = 4/5 ∨ (3 : ℚ)/5 = 1) ∧
    ((none : Option Str) = none → (none : Option Str) = none →
      ((3 : ℚ)/5 = 2/5 ∨ (3 : ℚ)/5 = 3/5 ∨ (3 : ℚ)/5 = 4/5)) :=
  score_match_confidence_values (-100) (PyVal.vstr "2024-06-15".toList)
    none none 100 [PyVal.vstr "2024-06-15".toList]
    (some "acme oy".toList) none () ((3 : ℚ)/5) ()
    (score_match_eval_bonus ())

/-- Claim C1, witness: the reference pass returns the second of three
attachments (the first match in list order) for a transaction with reference
`"RF00012345"`, and symmetrically for `find_transaction`. -/
theorem find_first_reference_match_witness :
    find_attachment ⟨some "RF00012345".toList, PyVal.vnone, 50, none⟩
      [⟨⟨none, none, none, none, none, none, none⟩⟩,
       ⟨⟨some "RF 12345".toList, none, none, none, none, none, none⟩⟩,
       ⟨⟨some "RF12345".toList, none, none, none, none, none, none⟩⟩] =
      some ⟨⟨some "RF 12345".toList, none, none, none, none, none, none⟩⟩ ∧
    find_transaction
      ⟨⟨some "RF00012345".toList, none, none, none, none, none, none⟩⟩
      [⟨none, PyVal.vnone, 50, none⟩,
       ⟨some "RF 12345".toList, PyVal.vnone, 50, none⟩] =
      some ⟨some "RF 12345".toList, PyVal.vnone, 50, none⟩ :=
  ⟨find_first_reference_match.1
      ⟨some "RF00012345".toList, PyVal.vnone, 50, none⟩
      [⟨⟨none, none, none, none, none, none, none⟩⟩]
      [⟨⟨some "RF12345".toList, none, none, none, none, none, none⟩⟩]
      ⟨⟨some "RF 12345".toList, none, none, none, none, none, none⟩⟩
      ("RF12345".toList) (by decide) (by decide) (by decide),
   find_first_reference_match.2
      ⟨⟨some "RF00012345".toList, none, none, none, none, none, none⟩⟩
      [⟨none, PyVal.vnone, 50, none⟩] []
      ⟨some "RF 12345".toList, PyVal.vnone, 50, none⟩
      ("RF12345".toList) (by decide) (by decide) (by decide)⟩

end Nocfo
